import Mathlib

set_option maxRecDepth 20000

/-!
Shallow embedding of the meox/chip8 CHIP-8 interpreter core
(src/main.rs and src/utils.rs) and verification of the frozen claims.

Modelling conventions:
* Rust `u8`/`u16`/`usize` values are `Nat`; where the source performs `u16`
  arithmetic that can wrap, the result is reduced with `w16` (`% 2^16`).
* Fixed arrays (`memory : [u8; 4096]`, `registers : [u16; 16]`,
  `gfx : [u8; 64*32]`) are total functions `Nat → Nat`; an array store
  `a[i] = v` is the pointwise update `upd a i v`.  A Rust indexing
  operation whose index can exceed the array bound (a panic) is modelled
  by an explicit bound check returning `none`.
* Fallible code (statements that can panic: `Vec::pop().unwrap()`,
  out-of-bounds indexing) is modelled in `Option`; `none` is the panic.
* The `HashMap<u16, u8>` of key states is an association list; `get` is
  `hmGet` (first matching entry).  `HashMap` iteration order (used only by
  the `KeyPressX` arm) is modelled as the list order.
* `rand::thread_rng().gen::<u16>()` is an explicit parameter `rnd`.
* `Vec` used as a stack (push/pop at the back) is a `List` with push/pop
  at the front.
-/

namespace Chip8

/-- Source constant `GFX_WIDTH` (main.rs line 26). -/
def GFX_WIDTH : Nat := 64

/-- Source constant `GFX_HEIGHT` (main.rs line 27). -/
def GFX_HEIGHT : Nat := 32

/-- Source constant `PROGRAM_START_ADDRESS` (main.rs line 28). -/
def PROGRAM_START_ADDRESS : Nat := 0x200

/-- Reduction modulo 2^16, modelling Rust `u16` wrapping arithmetic. -/
def w16 (x : Nat) : Nat := x % 65536

/-- Pointwise update of a function, modelling an array store `a[i] = v`. -/
def upd (f : Nat → Nat) (i v : Nat) : Nat → Nat := fun j => if j = i then v else f j

/-- The `Machine` struct (main.rs lines 30-55), field for field. -/
structure Machine where
  memory : Nat → Nat
  registers : Nat → Nat
  index_register : Nat
  pc : Nat
  gfx : Nat → Nat
  delay_timer : Nat
  sound_timer : Nat
  stack : List Nat
  opcode : Nat
  program_size : Nat
  keys : List (Nat × Nat)
  draw_flag : Bool

/-- The `OpCode` enum (main.rs lines 74-110), variant for variant. -/
inductive OpCode where
  | Clear
  | Return
  | JumpTo (n : Nat)
  | Call (n : Nat)
  | SkipEq (r n : Nat)
  | SkipNotEq (r n : Nat)
  | SkipEqXY (rx ry : Nat)
  | SetX (r n : Nat)
  | AddX (r n : Nat)
  | AssignXY (rx ry : Nat)
  | OrXY (rx ry : Nat)
  | AndXY (rx ry : Nat)
  | XorXY (rx ry : Nat)
  | AddXY (rx ry : Nat)
  | SubXY (rx ry : Nat)
  | ShiftRightX1 (r : Nat)
  | SubYX (rx ry : Nat)
  | ShiftLeftX1 (r : Nat)
  | SkipNotEqXY (rx ry : Nat)
  | SetIR (n : Nat)
  | Flow (n : Nat)
  | RandX (r n : Nat)
  | Draw (rx ry n : Nat)
  | KeyPressedX (r : Nat)
  | KeyNotPressedX (r : Nat)
  | TimerX (r : Nat)
  | KeyPressX (r : Nat)
  | SetDelayTimer (r : Nat)
  | SetSoundTimer (r : Nat)
  | MemAdd (r : Nat)
  | SpriteX (r : Nat)
  | BCD (r : Nat)
  | DumpX (r : Nat)
  | LoadX (r : Nat)
  | Invalid
  deriving DecidableEq

/-- Source `extract_x` (main.rs lines 112-114). -/
def extract_x (opcode : Nat) : Nat := (opcode &&& 0x0F00) >>> 8

/-- Source `extract_y` (main.rs lines 115-117). -/
def extract_y (opcode : Nat) : Nat := (opcode &&& 0x00F0) >>> 4

/-- Source `parse_opcode` (main.rs lines 119-177): total decoder from an
optional 16-bit word to an `OpCode`, dispatching on the top nibble
(`class`) and the low nibble (`selector`), with a nested dispatch on the
middle byte for the 0xF family. -/
def parse_opcode (op : Option Nat) : OpCode :=
  match op with
  | none => OpCode.Invalid
  | some opcode =>
    if opcode = 0x00E0 then OpCode.Clear
    else if opcode = 0x00EE then OpCode.Return
    else
      let cls := (opcode &&& 0xF000) >>> 12
      let selector := opcode &&& 0x000F
      match cls, selector with
      | 1, _ => OpCode.JumpTo (opcode &&& 0x0FFF)
      | 2, _ => OpCode.Call (opcode &&& 0x0FFF)
      | 3, _ => OpCode.SkipEq (extract_x opcode) (opcode &&& 0x00FF)
      | 4, _ => OpCode.SkipNotEq (extract_x opcode) (opcode &&& 0x00FF)
      | 5, 0 => OpCode.SkipEqXY (extract_x opcode) (extract_y opcode)
      | 6, _ => OpCode.SetX (extract_x opcode) (opcode &&& 0x00FF)
      | 7, _ => OpCode.AddX (extract_x opcode) (opcode &&& 0x00FF)
      | 8, 0 => OpCode.AssignXY (extract_x opcode) (extract_y opcode)
      | 8, 1 => OpCode.OrXY (extract_x opcode) (extract_y opcode)
      | 8, 2 => OpCode.AndXY (extract_x opcode) (extract_y opcode)
      | 8, 3 => OpCode.XorXY (extract_x opcode) (extract_y opcode)
      | 8, 4 => OpCode.AddXY (extract_x opcode) (extract_y opcode)
      | 8, 5 => OpCode.SubXY (extract_x opcode) (extract_y opcode)
      | 8, 6 => OpCode.ShiftRightX1 (extract_x opcode)
      | 8, 7 => OpCode.SubYX (extract_x opcode) (extract_y opcode)
      | 8, 0xE => OpCode.ShiftLeftX1 (extract_x opcode)
      | 9, 0 => OpCode.SkipNotEqXY (extract_x opcode) (extract_y opcode)
      | 0xA, _ => OpCode.SetIR (opcode &&& 0x0FFF)
      | 0xB, _ => OpCode.Flow (opcode &&& 0x0FFF)
      | 0xC, _ => OpCode.RandX (extract_x opcode) (opcode &&& 0x00FF)
      | 0xD, _ => OpCode.Draw (extract_x opcode) (extract_y opcode) (opcode &&& 0x000F)
      | 0xE, 9 => OpCode.KeyPressedX (extract_x opcode)
      | 0xE, 1 => OpCode.KeyNotPressedX (extract_x opcode)
      | 0xF, _ =>
        let sub_group := (opcode &&& 0x00F0) >>> 4
        match sub_group, selector with
        | 0, 7 => OpCode.TimerX (extract_x opcode)
        | 0, 0xA => OpCode.KeyPressX (extract_x opcode)
        | 1, 5 => OpCode.SetDelayTimer (extract_x opcode)
        | 1, 8 => OpCode.SetSoundTimer (extract_x opcode)
        | 1, 0xE => OpCode.MemAdd (extract_x opcode)
        | 2, 9 => OpCode.SpriteX (extract_x opcode)
        | 3, 3 => OpCode.BCD (extract_x opcode)
        | 5, 5 => OpCode.DumpX (extract_x opcode)
        | 6, 5 => OpCode.LoadX (extract_x opcode)
        | _, _ => OpCode.Invalid
      | _, _ => OpCode.Invalid

/-- Source `Machine::new` (main.rs lines 180-195).  Note that both timers
are initialized to `u16::MAX` (= 65535) in the source. -/
def Machine.new : Machine :=
  { memory := fun _ => 0
    registers := fun _ => 0
    index_register := 0
    pc := 0
    gfx := fun _ => 0
    delay_timer := 65535
    sound_timer := 65535
    stack := []
    opcode := 0
    program_size := 0
    keys := []
    draw_flag := false }

/-- The fontset table `codes` of `Machine::load_fontset` (main.rs lines
504-521), 16 glyphs of 5 bytes each. -/
def codes : List (List Nat) :=
  [[0xF0, 0x90, 0x90, 0x90, 0xF0],
   [0x20, 0x60, 0x20, 0x20, 0x70],
   [0xF0, 0x10, 0xF0, 0x80, 0xF0],
   [0xF0, 0x10, 0xF0, 0x10, 0xF0],
   [0x90, 0x90, 0xF0, 0x10, 0x10],
   [0xF0, 0x80, 0xF0, 0x10, 0xF0],
   [0xF0, 0x80, 0xF0, 0x90, 0xF0],
   [0xF0, 0x10, 0x20, 0x40, 0x40],
   [0xF0, 0x90, 0xF0, 0x90, 0xF0],
   [0xF0, 0x90, 0xF0, 0x10, 0xF0],
   [0xF0, 0x90, 0xF0, 0x90, 0x90],
   [0xE0, 0x90, 0xE0, 0x90, 0xE0],
   [0xF0, 0x80, 0x80, 0x80, 0xF0],
   [0xE0, 0x90, 0x90, 0x90, 0xE0],
   [0xF0, 0x80, 0xF0, 0x80, 0xF0],
   [0xF0, 0x80, 0xF0, 0x80, 0x80]]

/-- Sequential byte copy with no bound check, used for the fontset copy of
`Machine::load_fontset` (main.rs lines 523-530), whose target addresses
0..79 are statically within the 4096-byte array. -/
def writeBytes (f : Nat → Nat) (start : Nat) (bs : List Nat) : Nat → Nat :=
  match bs with
  | [] => f
  | b :: rest => writeBytes (upd f start b) (start + 1) rest

/-- Source `Machine::load_fontset` (main.rs lines 503-531): copies the 80
font bytes to memory starting at address 0. -/
def load_fontset (m : Machine) : Machine :=
  { m with memory := writeBytes m.memory 0 codes.flatten }

/-- Source `Machine::init` (main.rs lines 197-206): reset to `new`, set
the program counter to `PROGRAM_START_ADDRESS`, reload the fontset. -/
def Machine.init : Machine :=
  load_fontset { Machine.new with pc := PROGRAM_START_ADDRESS }

/-- Sequential bound-checked byte copy, modelling the copy loop of
`Machine::load_program` (main.rs lines 232-236): each store
`memory[start] = b` panics (`none`) when the index reaches the 4096-byte
array bound. -/
def copyBytes (f : Nat → Nat) (start : Nat) (bs : List Nat) : Option (Nat → Nat) :=
  match bs with
  | [] => some f
  | b :: rest => if start < 4096 then copyBytes (upd f start b) (start + 1) rest else none

/-- Source `Machine::load_program` (main.rs lines 230-239): copies the
bytes to memory starting at `PROGRAM_START_ADDRESS` with no explicit
length check (an oversized program runs the copy loop out of the array
bound, a panic), and records `program_size`. -/
def load_program (m : Machine) (p : List Nat) : Option Machine :=
  (copyBytes m.memory PROGRAM_START_ADDRESS p).map
    (fun mem => { m with memory := mem, program_size := p.length })

/-- Source `Machine::fetch_opcode` (main.rs lines 241-252): returns
`none`-word when the PC has run past the loaded program, otherwise reads
the big-endian 16-bit word at PC (bound-checked: the two byte reads panic
past the end of memory) and stores it in the `opcode` field. -/
def fetch_opcode (m : Machine) : Option (Machine × Option Nat) :=
  if m.pc > PROGRAM_START_ADDRESS + m.program_size then
    some (m, none)
  else if m.pc + 1 < 4096 then
    let w := ((m.memory m.pc) <<< 8) ||| (m.memory (m.pc + 1))
    some ({ m with opcode := w }, some w)
  else none

/-- Source `utils::convert_to_bits` (utils.rs lines 3-12), as a function
of the bit index: the source loop writes `r[7 - x] = (b >> x) & 1` for
`x` in `0..8`, i.e. the array entry at index `k` is `(b >> (7-k)) & 1`. -/
def convert_to_bits (b k : Nat) : Nat := (b >>> (7 - k)) &&& 1

/-- The `while` loop of `utils::convert_to_bcd` (utils.rs lines 17-25):
at digit index `i`, while `d > 0`, write the low decimal digit into
`r[i]` and continue with `d / 10` at index `i - 1`, breaking at `i = 0`. -/
def bcdLoop : Nat → Nat → List Nat → List Nat
  | d, 0, r => if 0 < d then r.set 0 (d % 10) else r
  | d, i + 1, r =>
      if 0 < d then bcdLoop ((d - d % 10) / 10) i (r.set (i + 1) (d % 10)) else r

/-- Source `utils::convert_to_bcd` (utils.rs lines 14-27): decimal digits
of `d`, ones digit at index 2, starting from the array `[0, 0, 0]`. -/
def convert_to_bcd (d : Nat) : List Nat := bcdLoop d 2 [0, 0, 0]

/-- Model of `HashMap::get` on the association-list key map: value of the
first entry with the given key. -/
def hmGet (keys : List (Nat × Nat)) (k : Nat) : Option Nat :=
  (keys.find? (fun p => p.1 == k)).map Prod.snd

/-- Pixel position targeted by sprite row `h`, column bit `k`, drawn at
origin `(x, y)` (main.rs lines 472-475): both coordinates wrap, and the
display buffer is row-major. -/
def pos_video (x y h k : Nat) : Nat :=
  ((y + h) % GFX_HEIGHT) * GFX_WIDTH + (x + k) % GFX_WIDTH

/-- One iteration of the inner `Draw` loop (main.rs lines 471-481) at
column bit `k` of sprite byte `b`: read the current pixel, accumulate the
collision flag when an already-set pixel meets a set sprite bit, and XOR
the sprite bit into the pixel.  The state is the pair (display buffer,
accumulated VF value). -/
def pixStep (x y h b k : Nat) (acc : (Nat → Nat) × Nat) : (Nat → Nat) × Nat :=
  let pos := pos_video x y h k
  let pixel := acc.1 pos
  (upd acc.1 pos (pixel ^^^ convert_to_bits b k),
   if pixel = 1 ∧ convert_to_bits b k = pixel then 1 else acc.2)

/-- The inner `Draw` loop `for k in 0..8` (main.rs lines 471-481), run for
the first `k` column bits in increasing order. -/
def rowSteps (x y h b : Nat) : Nat → ((Nat → Nat) × Nat) → (Nat → Nat) × Nat
  | 0, acc => acc
  | k + 1, acc => pixStep x y h b k (rowSteps x y h b k acc)

/-- The outer `Draw` loop `for h in 0..n` (main.rs lines 467-482), run for
the first `n` sprite rows in increasing order: row `h` reads the sprite
byte at the `u16` address `index_register + h` (a panic — `none` — when
that address is outside the 4096-byte memory) and blits its 8 bits. -/
def drawRows (mem : Nat → Nat) (ir x y : Nat) : Nat → ((Nat → Nat) × Nat) → Option ((Nat → Nat) × Nat)
  | 0, acc => some acc
  | n + 1, acc =>
      match drawRows mem ir x y n acc with
      | none => none
      | some acc1 =>
          if w16 (ir + n) < 4096 then
            some (rowSteps x y n (mem (w16 (ir + n))) 8 acc1)
          else none

/-- The `DumpX` loop `for i in 0..=r` (main.rs lines 448-451), run for the
first `c` values of `i` in increasing order: each store
`memory[index_register + i]` is bound-checked (`none` is the panic). -/
def dumpLoop (regs : Nat → Nat) (base : Nat) : Nat → (Nat → Nat) → Option (Nat → Nat)
  | 0, mem => some mem
  | i + 1, mem =>
      match dumpLoop regs base i mem with
      | none => none
      | some mem1 =>
          if base + i < 4096 then some (upd mem1 (base + i) (regs i &&& 0xFF)) else none

/-- The `LoadX` loop `for i in 0..=r` (main.rs lines 455-458), run for the
first `c` values of `i` in increasing order: each read
`memory[index_register + i]` is bound-checked (`none` is the panic). -/
def loadLoop (mem : Nat → Nat) (base : Nat) : Nat → (Nat → Nat) → Option (Nat → Nat)
  | 0, regs => some regs
  | i + 1, regs =>
      match loadLoop mem base i regs with
      | none => none
      | some regs1 =>
          if base + i < 4096 then some (upd regs1 i (mem (base + i))) else none

/-- The `match opcode` body of `Machine::exec_single` (main.rs lines
281-494), arm for arm, applied to a machine on which `draw_flag` has
already been cleared.  `rnd` is the value drawn from `rand::thread_rng()`
in the `RandX` arm.  The returned `Bool` is the function's Rust return
value (`false` exactly on `Invalid`); `none` models a panic. -/
def exec_opcode (rnd : Nat) (op : OpCode) (m : Machine) : Option (Machine × Bool) :=
  match op with
  | OpCode.Invalid => some (m, false)
  | OpCode.Clear =>
      some ({ m with gfx := fun _ => 0, draw_flag := true, pc := m.pc + 2 }, true)
  | OpCode.Return =>
      match m.stack with
      | [] => none
      | v :: rest => some ({ m with stack := rest, pc := v + 2 }, true)
  | OpCode.JumpTo n => some ({ m with pc := n }, true)
  | OpCode.Call n => some ({ m with stack := m.pc :: m.stack, pc := n }, true)
  | OpCode.SkipEq r n =>
      let m1 := if m.registers r = n then { m with pc := m.pc + 2 } else m
      some ({ m1 with pc := m1.pc + 2 }, true)
  | OpCode.SkipNotEq r n =>
      let m1 := if m.registers r ≠ n then { m with pc := m.pc + 2 } else m
      some ({ m1 with pc := m1.pc + 2 }, true)
  | OpCode.SkipEqXY rx ry =>
      let m1 := if m.registers rx = m.registers ry then { m with pc := m.pc + 2 } else m
      some ({ m1 with pc := m1.pc + 2 }, true)
  | OpCode.SetX r n =>
      some ({ m with registers := upd m.registers r n, pc := m.pc + 2 }, true)
  | OpCode.AddX r n =>
      some ({ m with registers := upd m.registers r (w16 (m.registers r + n) &&& 0xFF),
                     pc := m.pc + 2 }, true)
  | OpCode.AssignXY rx ry =>
      some ({ m with registers := upd m.registers rx (m.registers ry), pc := m.pc + 2 }, true)
  | OpCode.OrXY rx ry =>
      some ({ m with registers := upd m.registers rx (m.registers rx ||| m.registers ry),
                     pc := m.pc + 2 }, true)
  | OpCode.AndXY rx ry =>
      some ({ m with registers := upd m.registers rx (m.registers rx &&& m.registers ry),
                     pc := m.pc + 2 }, true)
  | OpCode.XorXY rx ry =>
      some ({ m with registers := upd m.registers rx (m.registers rx ^^^ m.registers ry),
                     pc := m.pc + 2 }, true)
  | OpCode.AddXY rx ry =>
      let r1 := upd m.registers rx (w16 (m.registers rx + m.registers ry))
      let r2 := upd r1 0xF (if 255 < r1 rx then 1 else 0)
      some ({ m with registers := upd r2 rx (r2 rx &&& 0xFF), pc := m.pc + 2 }, true)
  | OpCode.SubXY rx ry =>
      if m.registers ry ≤ m.registers rx then
        some ({ m with registers := upd (upd m.registers rx (m.registers rx - m.registers ry)) 0xF 1,
                       pc := m.pc + 2 }, true)
      else
        let r1 := upd (upd m.registers rx (w16 (65536 + 256 - (m.registers ry - m.registers rx)))) 0xF 0
        some ({ m with registers := r1, pc := m.pc + 2 }, true)
  | OpCode.ShiftRightX1 r =>
      let v := m.registers r
      let r1 := upd (upd m.registers 0xF (v &&& 0x0001)) r ((v >>> 1) &&& 0xFF)
      some ({ m with registers := r1, pc := m.pc + 2 }, true)
  | OpCode.SubYX rx ry =>
      if m.registers rx ≤ m.registers ry then
        some ({ m with registers := upd (upd m.registers rx (m.registers ry - m.registers rx)) 0xF 1,
                       pc := m.pc + 2 }, true)
      else
        some ({ m with registers := upd (upd m.registers rx 0) 0xF 0, pc := m.pc + 2 }, true)
  | OpCode.ShiftLeftX1 r =>
      let v := m.registers r
      let r1 := upd (upd m.registers 0xF (v &&& 0x80)) r (w16 (v <<< 1) &&& 0xFF)
      some ({ m with registers := r1, pc := m.pc + 2 }, true)
  | OpCode.SkipNotEqXY rx ry =>
      let m1 := if m.registers rx ≠ m.registers ry then { m with opcode := w16 (m.opcode + 1) } else m
      some ({ m1 with pc := m1.pc + 2 }, true)
  | OpCode.SetIR n => some ({ m with index_register := n, pc := m.pc + 2 }, true)
  | OpCode.Flow n => some ({ m with pc := w16 (m.registers 0 + n) }, true)
  | OpCode.RandX r n =>
      some ({ m with registers := upd m.registers r (rnd &&& n), pc := m.pc + 2 }, true)
  | OpCode.Draw rx ry n =>
      let x := m.registers rx
      let y := m.registers ry
      match drawRows m.memory m.index_register x y n (m.gfx, 0) with
      | none => none
      | some gv =>
          some ({ m with draw_flag := true, registers := upd m.registers 0xF gv.2,
                         gfx := gv.1, pc := m.pc + 2 }, true)
  | OpCode.KeyPressedX r =>
      let m1 := match hmGet m.keys (m.registers r) with
        | some v => if 0 < v then { m with pc := m.pc + 2 } else m
        | none => m
      some ({ m1 with pc := m1.pc + 2 }, true)
  | OpCode.KeyNotPressedX r =>
      let m1 := match hmGet m.keys (m.registers r) with
        | some v => if v = 0 then { m with pc := m.pc + 2 } else m
        | none => { m with pc := m.pc + 2 }
      some ({ m1 with pc := m1.pc + 2 }, true)
  | OpCode.KeyPressX r =>
      some (m.keys.foldl
        (fun acc kv =>
          if 0 < kv.2 then { acc with registers := upd acc.registers r kv.1, pc := acc.pc + 2 }
          else acc) m, true)
  | OpCode.TimerX r =>
      some ({ m with registers := upd m.registers r m.delay_timer, pc := m.pc + 2 }, true)
  | OpCode.SetDelayTimer r =>
      some ({ m with delay_timer := m.registers r, pc := m.pc + 2 }, true)
  | OpCode.SetSoundTimer r =>
      some ({ m with sound_timer := m.registers r, pc := m.pc + 2 }, true)
  | OpCode.MemAdd r =>
      some ({ m with index_register := w16 (m.index_register + m.registers r), pc := m.pc + 2 }, true)
  | OpCode.SpriteX r =>
      some ({ m with index_register := w16 (m.registers r * 5), pc := m.pc + 2 }, true)
  | OpCode.BCD r =>
      let ds := convert_to_bcd (m.registers r)
      if m.index_register < 4096 then
        if w16 (m.index_register + 1) < 4096 then
          if w16 (m.index_register + 2) < 4096 then
            let mem1 := upd (upd (upd m.memory m.index_register (ds.getD 0 0))
                              (w16 (m.index_register + 1)) (ds.getD 1 0))
                          (w16 (m.index_register + 2)) (ds.getD 2 0)
            some ({ m with memory := mem1, pc := m.pc + 2 }, true)
          else none
        else none
      else none
  | OpCode.DumpX r =>
      match dumpLoop m.registers m.index_register (r + 1) m.memory with
      | none => none
      | some mem => some ({ m with memory := mem, pc := m.pc + 2 }, true)
  | OpCode.LoadX r =>
      match loadLoop m.memory m.index_register (r + 1) m.registers with
      | none => none
      | some regs => some ({ m with registers := regs, pc := m.pc + 2 }, true)

/-- Source `Machine::exec_single` (main.rs lines 276-496): fetch, decode,
clear `draw_flag`, execute.  The returned `Bool` is `false` exactly when
the fetched word decodes to `Invalid`; `none` models a panic. -/
def exec_single (rnd : Nat) (m0 : Machine) : Option (Machine × Bool) :=
  match fetch_opcode m0 with
  | none => none
  | some mw => exec_opcode rnd (parse_opcode mw.2) { mw.1 with draw_flag := false }

/-- XOR mask contributed at position `p` by column bit `k` of sprite row
`h` (byte `b`) drawn at `(x, y)`. -/
def pixMask (x y h b k : Nat) : Nat → Nat := fun p =>
  if p = pos_video x y h k then convert_to_bits b k else 0

/-- XOR mask contributed at position `p` by the first `k` column bits of
sprite row `h`. -/
def rowMask (x y h b : Nat) : Nat → Nat → Nat
  | 0, _ => 0
  | k + 1, p => rowMask x y h b k p ^^^ pixMask x y h b k p

/-- XOR mask contributed at position `p` by the first `n` sprite rows. -/
def spriteMask (mem : Nat → Nat) (ir x y : Nat) : Nat → Nat → Nat
  | 0, _ => 0
  | n + 1, p => spriteMask mem ir x y n p ^^^ rowMask x y n (mem (w16 (ir + n))) 8 p

/-- Concrete machine for claim C1: fresh machine with V0 = 5, V1 = 3. -/
def mC1 : Machine :=
  { Machine.init with registers := upd (upd Machine.init.registers 0 5) 1 3 }

/-- Concrete machine for claim C3: fresh machine with V0 = 1, V1 = 2 and
the fetched word 0x9010 recorded in the `opcode` field. -/
def mC3 : Machine :=
  { Machine.init with registers := upd (upd Machine.init.registers 0 1) 1 2, opcode := 0x9010 }

/-- Concrete machine for claim C5: fresh machine with V0 = 0x80. -/
def mC5 : Machine :=
  { Machine.init with registers := upd Machine.init.registers 0 128 }

/-- Concrete machine for claim C9's counterexample, first scenario: sprite
byte 0x80 at memory address 0 (I = 0), display pixel (0, 0) already set. -/
def mC9A : Machine :=
  { Machine.new with memory := upd Machine.new.memory 0 128, gfx := upd Machine.new.gfx 0 1 }

/-- Concrete machine for claim C9's counterexample, second scenario:
sprite byte 0x80 at memory address 0 (I = 0), V15 = 5 used as the row
coordinate register. -/
def mC9B : Machine :=
  { Machine.new with memory := upd Machine.new.memory 0 128,
                     registers := upd Machine.new.registers 15 5 }

/-- Concrete machine for claim C9's witness: sprite byte 0x80 at memory
address 0 (I = 0), blank display, all registers 0. -/
def mC9W : Machine :=
  { Machine.new with memory := upd Machine.new.memory 0 128 }

/-- Concrete machine for claim C10's witness: V3 = 254, I = 0x300. -/
def mC10W : Machine :=
  { Machine.new with registers := upd Machine.new.registers 3 254, index_register := 0x300 }

/-! Helper lemmas. -/

theorem upd_self (f : Nat → Nat) (i v : Nat) : upd f i v i = v := by simp [upd]

theorem upd_other (f : Nat → Nat) (i v j : Nat) (h : j ≠ i) : upd f i v j = f j := by
  simp [upd, h]

theorem convert_to_bits_le_one (b k : Nat) : convert_to_bits b k ≤ 1 :=
  Nat.and_le_right

theorem xor_le_one {a b : Nat} (ha : a ≤ 1) (hb : b ≤ 1) : a ^^^ b ≤ 1 := by
  interval_cases a <;> interval_cases b <;> decide

/-- Exhaustive check of `convert_to_bcd` on all three-digit inputs. -/
theorem bcd_all :
    ((List.range 1000).all
      (fun d => convert_to_bcd d == [d / 100, d / 10 % 10, d % 10])) = true := by decide

/-- The digits produced by `convert_to_bcd` for any input below 1000. -/
theorem bcd_table (d : Nat) (hd : d < 1000) :
    convert_to_bcd d = [d / 100, d / 10 % 10, d % 10] := by
  have h := List.all_eq_true.mp bcd_all d (List.mem_range.mpr hd)
  exact eq_of_beq h

/-! Claim theorems C1 - C8. -/

/-- Claim C1 (code bug, failing-input evaluation): executing `SubYX`
(word 0x8017) with V0 = 5, V1 = 3 — so Vy < Vx, the borrow case — clamps
V0 to 0 with VF = 0, instead of the wraparound result
(256 + 3 - 5) mod 256 = 254 stated by the claim. -/
theorem C1_subyx_clamps_to_zero :
    parse_opcode (some 0x8017) = OpCode.SubYX 0 1 ∧
    (exec_opcode 0 (OpCode.SubYX 0 1) mC1).map
      (fun p => (p.1.registers 0, p.1.registers 0xF, p.2)) = some (0, 0, true) := by
  exact ⟨by decide, by decide⟩

/-- Claim C2 (code bug, failing-input evaluation): `Return` on an empty
call stack is `stack.pop().unwrap()` — a panic (`none`), not a
`Halted(StackUnderflow)` result; and `Call` pushes onto an unbounded
`Vec` with no depth check, so it succeeds from every stack, and no
`StackOverflow` condition exists. -/
theorem C2_return_panics_call_unbounded :
    exec_opcode 0 OpCode.Return Machine.init = none ∧
    ∀ (st : List Nat) (nn : Nat),
      (exec_opcode 0 (OpCode.Call nn) { Machine.init with stack := st }).isSome = true :=
  ⟨rfl, fun _ _ => rfl⟩

/-- Claim C3 (code bug, failing-input evaluation): `SkipNotEqXY` (word
0x9010) with V0 = 1 ≠ V1 = 2 — the condition holding — advances the PC by
only 2 (0x200 to 0x202, not 0x204) and instead increments the stored
`opcode` state field from 0x9010 to 0x9011. -/
theorem C3_skipnoteqxy_increments_opcode :
    parse_opcode (some 0x9010) = OpCode.SkipNotEqXY 0 1 ∧
    (exec_opcode 0 (OpCode.SkipNotEqXY 0 1) mC3).map
      (fun p => (p.1.pc, p.1.opcode)) = some (0x202, 0x9011) := by
  exact ⟨by decide, by decide⟩

/-- Claim C4 (code bug, failing-input evaluation): the decoder matches the
0xE family on the LOW nibble, so 0xEX9E (low nibble 0xE) decodes to
`Invalid` — stepping on it returns `false` (halt) — while 0xEXA1 does
decode to the key-not-pressed skip. -/
theorem C4_ex9e_decodes_invalid :
    parse_opcode (some 0xE09E) = OpCode.Invalid ∧
    parse_opcode (some 0xE0A1) = OpCode.KeyNotPressedX 0 ∧
    ((load_program Machine.init [0xE0, 0x9E]).bind
      (fun mm => exec_single 0 mm)).map (fun p => p.2) = some false := by
  exact ⟨by decide, by decide, by decide⟩

/-- Claim C5 (code bug, failing-input evaluation): `ShiftLeftX1` (word
0x800E) with V0 = 0x80 stores the mask value `v & 0x80` = 128 in VF, not
the bit value 1 stated by the claim; the shifted register itself is
correct ((128 << 1) & 0xFF = 0). -/
theorem C5_shift_left_stores_mask :
    parse_opcode (some 0x800E) = OpCode.ShiftLeftX1 0 ∧
    (exec_opcode 0 (OpCode.ShiftLeftX1 0) mC5).map
      (fun p => (p.1.registers 0xF, p.1.registers 0)) = some (128, 0) := by
  exact ⟨by decide, by decide⟩

/-- Claim C6 (code bug, failing-input evaluation): from a reset machine
(whose `delay_timer` is initialized to `u16::MAX` = 65535) loaded with the
single instruction 0xF007 (`TimerX`: V0 = delay timer), one step leaves
register 0 holding 65535 ≥ 256 — a reachable state whose register value
does not fit in 8 bits. -/
theorem C6_timer_read_exceeds_byte :
    ((load_program Machine.init [0xF0, 0x07]).bind
      (fun mm => exec_single 0 mm)).map
        (fun p => (p.1.registers 0, p.2)) = some (65535, true) := by decide

/-- Claim C7 counterexample: `Call 0x300` from a fresh machine (PC =
0x200) pushes 0x200 — the call instruction's own address — onto the
stack, not 0x202 (the address immediately following the call) as the
claim states. -/
theorem C7_call_pushes_own_address :
    (exec_opcode 0 (OpCode.Call 0x300) Machine.init).map
      (fun p => (p.1.stack, p.1.pc)) = some ([0x200], 0x300) ∧
    ¬ (exec_opcode 0 (OpCode.Call 0x300) Machine.init).map
        (fun p => p.1.stack) = some [0x202] := by
  exact ⟨by decide, by decide⟩

/-- Claim C7 as amended: for every target `n` and every state, `Call`
pushes the call instruction's own address (the current PC) onto the call
stack and then sets PC to `n`; the missing +2 is compensated by `Return`,
which adds 2 to the popped address, so a Call/Return pair resumes at the
instruction after the call. -/
theorem C7_call_return (rnd rnd2 : Nat) (m : Machine) (n : Nat) :
    exec_opcode rnd (OpCode.Call n) m = some ({ m with stack := m.pc :: m.stack, pc := n }, true) ∧
    exec_opcode rnd2 OpCode.Return { m with stack := m.pc :: m.stack, pc := n } =
      some ({ m with pc := m.pc + 2 }, true) :=
  ⟨rfl, rfl⟩

/-- Behaviour of the `load_program` copy loop when it stays within the
memory bound: it succeeds, the copied region holds the input bytes, and
addresses below the start are untouched. -/

theorem copyBytes_ok : ∀ (bs : List Nat) (f : Nat → Nat) (start : Nat),
    start + bs.length ≤ 4096 →
    ∃ g, copyBytes f start bs = some g ∧
      (∀ i, i < bs.length → g (start + i) = bs.getD i 0) ∧
      (∀ a, a < start → g a = f a) := by
  intro bs
  induction bs with
  | nil =>
      intro f start _
      exact ⟨f, rfl, fun i hi => absurd hi (by simp), fun a _ => rfl⟩
  | cons b rest ih =>
      intro f start hlen
      have hs : start < 4096 := by simp at hlen; omega
      obtain ⟨g, e, hcopy, hbelow⟩ := ih (upd f start b) (start + 1) (by simp at hlen ⊢; omega)
      refine ⟨g, ?_, ?_, ?_⟩
      · simpa [copyBytes, hs] using e
      · intro i hi
        match i with
        | 0 =>
            have : g start = upd f start b start := hbelow start (by omega)
            simpa [upd] using this
        | j + 1 =>
            have : start + (j + 1) = (start + 1) + j := by omega
            rw [this]
            simpa using hcopy j (by simpa using hi)
      · intro a ha
        rw [hbelow a (by omega), upd_other _ _ _ _ (by omega)]

/-- Behaviour of the `load_program` copy loop when the input runs past
the memory bound: the out-of-bounds store panics (`none`). -/

theorem copyBytes_fail : ∀ (bs : List Nat) (f : Nat → Nat) (start : Nat),
    start ≤ 4096 → 4096 < start + bs.length → copyBytes f start bs = none := by
  intro bs
  induction bs with
  | nil => intro f start h1 h2; simp at h2; omega
  | cons b rest ih =>
      intro f start h1 h2
      by_cases hs : start < 4096
      · simp only [copyBytes, if_pos hs]
        exact ih (upd f start b) (start + 1) (by omega) (by simp at h2 ⊢; omega)
      · simp [copyBytes, hs]

/-- Claim C8 (code bug): `load_program` has no length check — for every
input longer than 3584 bytes the copy loop indexes `memory` out of
bounds, a panic (`none`), not a `LoadError`; for every input of length
at most 3584 it succeeds and the bytes read back verbatim from
`[0x200, 0x200 + len)`. -/

theorem C8_thm (m : Machine) (p : List Nat) :
    (3584 < p.length → load_program m p = none) ∧
    (p.length ≤ 3584 →
      ∃ m', load_program m p = some m' ∧ m'.program_size = p.length ∧
        ∀ i, i < p.length → m'.memory (0x200 + i) = p.getD i 0) := by
  constructor
  · intro hlen
    have := copyBytes_fail p m.memory PROGRAM_START_ADDRESS (by decide)
      (by simp [PROGRAM_START_ADDRESS]; omega)
    simp [load_program, this]
  · intro hlen
    obtain ⟨g, e, hcopy, _⟩ := copyBytes_ok p m.memory PROGRAM_START_ADDRESS
      (by simp [PROGRAM_START_ADDRESS]; omega)
    refine ⟨{ m with memory := g, program_size := p.length }, ?_, rfl, hcopy⟩
    simp [load_program, e]

/-- Witness for `C8_thm` at concrete inputs: a 3585-byte program panics
the copy loop, and the two-byte program `[7, 9]` reads back verbatim. -/

theorem C8_witness :
    load_program Machine.init (List.replicate 3585 0) = none ∧
    ∃ m', load_program Machine.init [7, 9] = some m' ∧
      m'.program_size = ([7, 9] : List Nat).length ∧
      ∀ i, i < ([7, 9] : List Nat).length → m'.memory (0x200 + i) = ([7, 9] : List Nat).getD i 0 :=
  ⟨(C8_thm Machine.init (List.replicate 3585 0)).1 (by rw [List.length_replicate]; omega),
   (C8_thm Machine.init [7, 9]).2
     (by rw [List.length_cons, List.length_cons, List.length_nil]; omega)⟩

/-- Claim C10 (confirmed): for a register value of at most 999,
`convert_to_bcd` returns the three decimal digits `[h, t, o]` with
`100*h + 10*t + o` equal to the value and each digit at most 9, and the
BCD instruction stores exactly these three bytes at `I`, `I+1`, `I+2`
(hundreds digit first) leaving the index register and all registers
unchanged. -/

theorem C10_thm (rnd : Nat) (m : Machine) (r : Nat)
    (hd : m.registers r ≤ 999) (hI : m.index_register + 2 < 4096) :
    ∃ h t o, convert_to_bcd (m.registers r) = [h, t, o] ∧
      100 * h + 10 * t + o = m.registers r ∧ h ≤ 9 ∧ t ≤ 9 ∧ o ≤ 9 ∧
      ∃ m', exec_opcode rnd (OpCode.BCD r) m = some (m', true) ∧
        m'.memory m.index_register = h ∧
        m'.memory (m.index_register + 1) = t ∧
        m'.memory (m.index_register + 2) = o ∧
        m'.index_register = m.index_register ∧
        m'.registers = m.registers := by
  have htab := bcd_table (m.registers r) (by omega)
  refine ⟨m.registers r / 100, m.registers r / 10 % 10, m.registers r % 10, htab,
    by omega, by omega, by omega, by omega, ?_⟩
  have h1 : w16 (m.index_register + 1) = m.index_register + 1 := Nat.mod_eq_of_lt (by omega)
  have h2 : w16 (m.index_register + 2) = m.index_register + 2 := Nat.mod_eq_of_lt (by omega)
  have e : exec_opcode rnd (OpCode.BCD r) m =
      some ({ m with memory := upd (upd (upd m.memory m.index_register (m.registers r / 100)) (m.index_register + 1) (m.registers r / 10 % 10)) (m.index_register + 2) (m.registers r % 10),
                     pc := m.pc + 2 }, true) := by
    simp only [exec_opcode, htab, h1, h2]
    rw [if_pos (show m.index_register < 4096 by omega),
        if_pos (show m.index_register + 1 < 4096 by omega),
        if_pos (show m.index_register + 2 < 4096 by omega)]
    rfl
  rw [e]
  refine ⟨_, rfl, ?_, ?_, ?_, rfl, rfl⟩
  · show upd (upd (upd m.memory m.index_register (m.registers r / 100))
        (m.index_register + 1) (m.registers r / 10 % 10))
        (m.index_register + 2) (m.registers r % 10) m.index_register = m.registers r / 100
    rw [upd_other _ _ _ _ (by omega), upd_other _ _ _ _ (by omega), upd_self]
  · show upd (upd (upd m.memory m.index_register (m.registers r / 100))
        (m.index_register + 1) (m.registers r / 10 % 10))
        (m.index_register + 2) (m.registers r % 10) (m.index_register + 1) = m.registers r / 10 % 10
    rw [upd_other _ _ _ _ (by omega), upd_self]
  · show upd (upd (upd m.memory m.index_register (m.registers r / 100))
        (m.index_register + 1) (m.registers r / 10 % 10))
        (m.index_register + 2) (m.registers r % 10) (m.index_register + 2) = m.registers r % 10
    rw [upd_self]

/-- Witness for `C10_thm`: the machine `mC10W` with V3 = 254, I = 0x300. -/

theorem C10_witness :
    ∃ h t o, convert_to_bcd (mC10W.registers 3) = [h, t, o] ∧
      100 * h + 10 * t + o = mC10W.registers 3 ∧ h ≤ 9 ∧ t ≤ 9 ∧ o ≤ 9 ∧
      ∃ m', exec_opcode 0 (OpCode.BCD 3) mC10W = some (m', true) ∧
        m'.memory mC10W.index_register = h ∧
        m'.memory (mC10W.index_register + 1) = t ∧
        m'.memory (mC10W.index_register + 2) = o ∧
        m'.index_register = mC10W.index_register ∧
        m'.registers = mC10W.registers :=
  C10_thm 0 mC10W 3 (by decide) (by decide)

/-- Distinct column bits of the same sprite row target distinct display
positions (8 columns fit inside the width-64 wrap). -/
theorem pos_video_ne_col {x y h k1 k2 : Nat} (h1 : k1 < 8) (h2 : k2 < 8) (hne : k1 ≠ k2) :
    pos_video x y h k1 ≠ pos_video x y h k2 := by
  intro he
  simp only [pos_video, GFX_WIDTH, GFX_HEIGHT] at he
  omega

/-- Distinct sprite rows below the height bound target distinct display
positions, whatever the column bits. -/
theorem pos_video_ne_row {x y h1 h2 k1 k2 : Nat} (hh1 : h1 < 32) (hh2 : h2 < 32)
    (hne : h1 ≠ h2) : pos_video x y h1 k1 ≠ pos_video x y h2 k2 := by
  intro he
  simp only [pos_video, GFX_WIDTH, GFX_HEIGHT] at he
  omega

/-- A row mask vanishes at any position not targeted by its column bits. -/
theorem rowMask_eq_zero (x y h b : Nat) :
    ∀ k p, (∀ k', k' < k → pos_video x y h k' ≠ p) → rowMask x y h b k p = 0 := by
  intro k
  induction k with
  | zero => intro p _; rfl
  | succ k ih =>
      intro p hne
      simp only [rowMask]
      rw [ih p (fun k' hk' => hne k' (by omega))]
      have : p ≠ pos_video x y h k := fun hp => hne k (by omega) hp.symm
      simp [pixMask, this]

/-- A sprite mask vanishes at any position not targeted by its rows. -/
theorem spriteMask_eq_zero (mem : Nat → Nat) (ir x y : Nat) :
    ∀ n p, (∀ h' k', h' < n → k' < 8 → pos_video x y h' k' ≠ p) →
      spriteMask mem ir x y n p = 0 := by
  intro n
  induction n with
  | zero => intro p _; rfl
  | succ n ih =>
      intro p hne
      simp only [spriteMask]
      rw [ih p (fun h' k' hh' hk' => hne h' k' (by omega) hk'),
        rowMask_eq_zero x y n _ 8 p (fun k' hk' => hne n k' (by omega) (by omega))]
      exact Nat.xor_zero 0

/-- At the position of column bit `k`, the row mask over at least `k + 1`
columns equals exactly that sprite bit. -/
theorem rowMask_hit (x y h b : Nat) :
    ∀ kk k, k < kk → kk ≤ 8 → rowMask x y h b kk (pos_video x y h k) = convert_to_bits b k := by
  intro kk
  induction kk with
  | zero => intro k hk _; omega
  | succ kk ih =>
      intro k hk hkk
      simp only [rowMask]
      rcases Nat.lt_succ_iff_lt_or_eq.mp hk with h' | h'
      · rw [ih k h' (by omega)]
        have hne : pos_video x y h k ≠ pos_video x y h kk :=
          pos_video_ne_col (by omega) (by omega) (by omega)
        simp [pixMask, hne]
      · subst h'
        rw [rowMask_eq_zero x y h b k _
          (fun k' hk' => pos_video_ne_col (by omega) (by omega) (by omega))]
        simp [pixMask]

/-- At the position of row `h`, column `k`, the sprite mask over `n ≤ 32`
rows equals exactly that sprite bit. -/
theorem spriteMask_hit (mem : Nat → Nat) (ir x y : Nat) :
    ∀ n h k, n ≤ 32 → h < n → k < 8 →
      spriteMask mem ir x y n (pos_video x y h k) = convert_to_bits (mem (w16 (ir + h))) k := by
  intro n
  induction n with
  | zero => intro h k _ hh _; omega
  | succ n ih =>
      intro h k hn hh hk
      simp only [spriteMask]
      rcases Nat.lt_succ_iff_lt_or_eq.mp hh with h' | h'
      · rw [ih h k (by omega) h' hk,
          rowMask_eq_zero x y n _ 8 _
            (fun k' _ => pos_video_ne_row (by omega) (by omega) (by omega))]
        exact Nat.xor_zero _
      · subst h'
        rw [spriteMask_eq_zero mem ir x y h _
            (fun h' k' hh' hk' => pos_video_ne_row (by omega) (by omega) (by omega)),
          rowMask_hit x y h _ 8 k hk (by omega)]
        exact Nat.zero_xor _

/-- The display buffer after the inner `Draw` loop is the initial buffer
XORed pointwise with the row mask. -/
theorem rowSteps_fst (x y h b : Nat) :
    ∀ k acc p, (rowSteps x y h b k acc).1 p = acc.1 p ^^^ rowMask x y h b k p := by
  intro k
  induction k with
  | zero => intro acc p; exact (Nat.xor_zero _).symm
  | succ k ih =>
      intro acc p
      simp only [rowSteps, pixStep, rowMask]
      by_cases hp : p = pos_video x y h k
      · subst hp
        rw [upd_self, ih acc, pixMask, if_pos rfl, Nat.xor_assoc]
      · rw [upd_other _ _ _ _ hp, ih acc]
        simp [pixMask, hp]

/-- The collision flag accumulated by the inner `Draw` loop stays a bit. -/
theorem rowSteps_snd_le (x y h b : Nat) :
    ∀ k acc, acc.2 ≤ 1 → (rowSteps x y h b k acc).2 ≤ 1 := by
  intro k
  induction k with
  | zero => intro acc hacc; exact hacc
  | succ k ih =>
      intro acc hacc
      simp only [rowSteps, pixStep]
      split
      · exact Nat.le_refl 1
      · exact ih acc hacc

/-- Collision characterization of the inner `Draw` loop: the flag is 1
iff it was already 1 or some processed column bit is set and meets a
set pixel of the initial buffer (earlier columns of the same row cannot
touch its position). -/
theorem rowSteps_vf (x y h b : Nat) :
    ∀ k, k ≤ 8 → ∀ (g : Nat → Nat) (vf : Nat),
      ((rowSteps x y h b k (g, vf)).2 = 1 ↔
        vf = 1 ∨ ∃ k', k' < k ∧ g (pos_video x y h k') = 1 ∧ convert_to_bits b k' = 1) := by
  intro k
  induction k with
  | zero =>
      intro _ g vf
      simp [rowSteps]
  | succ k ih =>
      intro hk8 g vf
      simp only [rowSteps, pixStep]
      have hfst : (rowSteps x y h b k (g, vf)).1 (pos_video x y h k) = g (pos_video x y h k) := by
        rw [rowSteps_fst, rowMask_eq_zero x y h b k _
          (fun k' hk' => pos_video_ne_col (by omega) (by omega) (by omega)), Nat.xor_zero]
      rw [hfst]
      by_cases hC : g (pos_video x y h k) = 1 ∧ convert_to_bits b k = g (pos_video x y h k)
      · rw [if_pos hC]
        constructor
        · intro _
          exact Or.inr ⟨k, by omega, hC.1, by rw [hC.2, hC.1]⟩
        · intro _; rfl
      · rw [if_neg hC]
        rw [ih (by omega) g vf]
        constructor
        · rintro (hv | ⟨k', hk', hg, hb'⟩)
          · exact Or.inl hv
          · exact Or.inr ⟨k', by omega, hg, hb'⟩
        · rintro (hv | ⟨k', hk', hg, hb'⟩)
          · exact Or.inl hv
          · rcases Nat.lt_succ_iff_lt_or_eq.mp hk' with h' | h'
            · exact Or.inr ⟨k', h', hg, hb'⟩
            · subst h'
              exact absurd ⟨hg, by rw [hb', hg]⟩ hC

/-- The outer `Draw` loop succeeds whenever every row address is within
the memory bound. -/
theorem drawRows_ok (mem : Nat → Nat) (ir x y : Nat) :
    ∀ n, (∀ h, h < n → w16 (ir + h) < 4096) →
      ∀ acc, ∃ res, drawRows mem ir x y n acc = some res := by
  intro n
  induction n with
  | zero => intro _ acc; exact ⟨acc, rfl⟩
  | succ n ih =>
      intro hb acc
      obtain ⟨acc1, e1⟩ := ih (fun h hh => hb h (by omega)) acc
      refine ⟨rowSteps x y n (mem (w16 (ir + n))) 8 acc1, ?_⟩
      simp only [drawRows, e1]
      rw [if_pos (hb n (by omega))]

/-- The display buffer after the outer `Draw` loop is the initial buffer
XORed pointwise with the sprite mask. -/
theorem drawRows_fst (mem : Nat → Nat) (ir x y : Nat) :
    ∀ n (g : Nat → Nat) (vf : Nat) res,
      drawRows mem ir x y n (g, vf) = some res →
      ∀ p, res.1 p = g p ^^^ spriteMask mem ir x y n p := by
  intro n
  induction n with
  | zero =>
      intro g vf res e p
      simp only [drawRows, Option.some_inj] at e
      subst e
      exact (Nat.xor_zero _).symm
  | succ n ih =>
      intro g vf res e p
      simp only [drawRows] at e
      cases e1 : drawRows mem ir x y n (g, vf) with
      | none => rw [e1] at e; cases e
      | some acc1 =>
          rw [e1] at e
          replace e : (if w16 (ir + n) < 4096 then
              some (rowSteps x y n (mem (w16 (ir + n))) 8 acc1) else none) = some res := e
          by_cases hb : w16 (ir + n) < 4096
          · rw [if_pos hb, Option.some_inj] at e
            subst e
            rw [rowSteps_fst, ih g vf acc1 e1 p]
            simp only [spriteMask]
            exact Nat.xor_assoc _ _ _
          · rw [if_neg hb] at e; cases e

/-- The collision flag accumulated by the outer `Draw` loop stays a bit. -/
theorem drawRows_vf_le (mem : Nat → Nat) (ir x y : Nat) :
    ∀ n acc res, acc.2 ≤ 1 → drawRows mem ir x y n acc = some res → res.2 ≤ 1 := by
  intro n
  induction n with
  | zero =>
      intro acc res hacc e
      simp only [drawRows, Option.some_inj] at e
      subst e; exact hacc
  | succ n ih =>
      intro acc res hacc e
      simp only [drawRows] at e
      cases e1 : drawRows mem ir x y n acc with
      | none => rw [e1] at e; cases e
      | some acc1 =>
          rw [e1] at e
          replace e : (if w16 (ir + n) < 4096 then
              some (rowSteps x y n (mem (w16 (ir + n))) 8 acc1) else none) = some res := e
          by_cases hb : w16 (ir + n) < 4096
          · rw [if_pos hb, Option.some_inj] at e
            subst e
            exact rowSteps_snd_le _ _ _ _ _ _ (ih acc acc1 hacc e1)
          · rw [if_neg hb] at e; cases e

/-- Collision characterization of the outer `Draw` loop for `n ≤ 32`
rows: the flag is 1 iff it started at 1 or some set sprite bit meets a
set pixel of the initial buffer. -/
theorem drawRows_vf (mem : Nat → Nat) (ir x y : Nat) :
    ∀ n, n ≤ 32 → ∀ (g : Nat → Nat) (vf : Nat) res,
      drawRows mem ir x y n (g, vf) = some res →
      (res.2 = 1 ↔ vf = 1 ∨ ∃ h, h < n ∧ ∃ k, k < 8 ∧
          g (pos_video x y h k) = 1 ∧ convert_to_bits (mem (w16 (ir + h))) k = 1) := by
  intro n
  induction n with
  | zero =>
      intro _ g vf res e
      simp only [drawRows, Option.some_inj] at e
      subst e
      simp
  | succ n ih =>
      intro hn g vf res e
      simp only [drawRows] at e
      cases e1 : drawRows mem ir x y n (g, vf) with
      | none => rw [e1] at e; cases e
      | some acc1 =>
          rw [e1] at e
          replace e : (if w16 (ir + n) < 4096 then
              some (rowSteps x y n (mem (w16 (ir + n))) 8 acc1) else none) = some res := e
          by_cases hb : w16 (ir + n) < 4096
          · rw [if_pos hb, Option.some_inj] at e
            subst e
            have hvf := rowSteps_vf x y n (mem (w16 (ir + n))) 8 (by omega) acc1.1 acc1.2
            have hihvf := ih (by omega) g vf acc1 e1
            have hfst : ∀ k, k < 8 →
                acc1.1 (pos_video x y n k) = g (pos_video x y n k) := by
              intro k hk
              rw [drawRows_fst mem ir x y n g vf acc1 e1,
                spriteMask_eq_zero mem ir x y n _
                  (fun h' k' hh' hk' => pos_video_ne_row (by omega) (by omega) (by omega)),
                Nat.xor_zero]
            rw [show (rowSteps x y n (mem (w16 (ir + n))) 8 acc1) =
              (rowSteps x y n (mem (w16 (ir + n))) 8 (acc1.1, acc1.2)) from rfl]
            rw [hvf]
            constructor
            · rintro (hv | ⟨k, hk, hg, hb'⟩)
              · rcases hihvf.mp hv with hv' | ⟨h', hh', k', hk', hg', hb''⟩
                · exact Or.inl hv'
                · exact Or.inr ⟨h', by omega, k', hk', hg', hb''⟩
              · rw [hfst k hk] at hg
                exact Or.inr ⟨n, by omega, k, hk, hg, hb'⟩
            · rintro (hv | ⟨h', hh', k', hk', hg', hb''⟩)
              · exact Or.inl (hihvf.mpr (Or.inl hv))
              · rcases Nat.lt_succ_iff_lt_or_eq.mp hh' with h'' | h''
                · exact Or.inl (hihvf.mpr (Or.inr ⟨h', h'', k', hk', hg', hb''⟩))
                · subst h''
                  refine Or.inr ⟨k', hk', ?_, hb''⟩
                  rw [hfst k' hk']
                  exact hg'
          · rw [if_neg hb] at e; cases e

/-- Unfolding of the `Draw` arm of `exec_opcode` for a successful blit. -/
theorem exec_draw (rnd : Nat) (m : Machine) (rx ry n : Nat) (res : (Nat → Nat) × Nat)
    (e : drawRows m.memory m.index_register (m.registers rx) (m.registers ry) n (m.gfx, 0) =
      some res) :
    exec_opcode rnd (OpCode.Draw rx ry n) m =
      some ({ m with draw_flag := true, registers := upd m.registers 0xF res.2, gfx := res.1,
                     pc := m.pc + 2 }, true) := by
  simp only [exec_opcode, e]



/-- Claim C9 as amended: for coordinate registers other than VF, with the
sprite rows inside memory and a 1-bit display buffer, executing the same
`Draw` twice restores the display buffer exactly (XOR self-inverse, with
coordinates wrapping), VF is a bit, and after the second draw VF = 1
exactly when the sprite has a set bit at a position whose display pixel
was clear before the first draw — not merely whenever the sprite is
nonzero, and VF is reset to 0 at the start of each draw and set to 1 only
by a collision. -/
theorem C9_thm (rnd1 rnd2 : Nat) (m : Machine) (rx ry n : Nat)
    (hrx : rx ≠ 15) (hry : ry ≠ 15) (hn : n ≤ 15)
    (hmem : m.index_register + n ≤ 4096)
    (hgfx : ∀ p, m.gfx p ≤ 1) :
    ∃ m1 m2,
      exec_opcode rnd1 (OpCode.Draw rx ry n) m = some (m1, true) ∧
      exec_opcode rnd2 (OpCode.Draw rx ry n) m1 = some (m2, true) ∧
      m2.gfx = m.gfx ∧
      (m2.registers 15 = 1 ↔ ∃ h, h < n ∧ ∃ k, k < 8 ∧
          convert_to_bits (m.memory (m.index_register + h)) k = 1 ∧
          m.gfx (pos_video (m.registers rx) (m.registers ry) h k) = 0) ∧
      (m2.registers 15 = 0 ∨ m2.registers 15 = 1) := by
  have hw : ∀ h, h < n → w16 (m.index_register + h) = m.index_register + h := by
    intro h hh
    simp only [w16]
    exact Nat.mod_eq_of_lt (by omega)
  have hb : ∀ h, h < n → w16 (m.index_register + h) < 4096 := by
    intro h hh
    rw [hw h hh]
    omega
  obtain ⟨res1, e1⟩ :=
    drawRows_ok m.memory m.index_register (m.registers rx) (m.registers ry) n hb (m.gfx, 0)
  have E1 := exec_draw rnd1 m rx ry n res1 e1
  obtain ⟨res2, e2⟩ :=
    drawRows_ok m.memory m.index_register (m.registers rx) (m.registers ry) n hb (res1.1, 0)
  have e2' : drawRows m.memory m.index_register (upd m.registers 0xF res1.2 rx)
      (upd m.registers 0xF res1.2 ry) n (res1.1, 0) = some res2 := by
    rw [upd_other _ _ _ _ hrx, upd_other _ _ _ _ hry]
    exact e2
  have E2 := exec_draw rnd2
    { m with draw_flag := true, registers := upd m.registers 0xF res1.2, gfx := res1.1,
             pc := m.pc + 2 } rx ry n res2 e2'
  refine ⟨_, _, E1, E2, ?_, ?_, ?_⟩
  · funext p
    show res2.1 p = m.gfx p
    rw [drawRows_fst m.memory m.index_register (m.registers rx) (m.registers ry) n
        res1.1 0 res2 e2 p,
      drawRows_fst m.memory m.index_register (m.registers rx) (m.registers ry) n
        m.gfx 0 res1 e1 p]
    exact Nat.xor_cancel_right _ _
  · show upd (upd m.registers 0xF res1.2) 0xF res2.2 15 = 1 ↔ _
    rw [upd_self]
    have hvf := drawRows_vf m.memory m.index_register (m.registers rx) (m.registers ry)
      n (by omega) res1.1 0 res2 e2
    rw [hvf]
    constructor
    · rintro (h0 | ⟨h, hh, k, hk, hg, hbit⟩)
      · omega
      · rw [hw h hh] at hbit
        have hS := spriteMask_hit m.memory m.index_register (m.registers rx) (m.registers ry)
          n h k (by omega) hh hk
        rw [hw h hh] at hS
        rw [drawRows_fst m.memory m.index_register (m.registers rx) (m.registers ry) n
            m.gfx 0 res1 e1, hS, hbit] at hg
        refine ⟨h, hh, k, hk, hbit, ?_⟩
        rcases Nat.le_one_iff_eq_zero_or_eq_one.mp
          (hgfx (pos_video (m.registers rx) (m.registers ry) h k)) with h0 | h1
        · exact h0
        · rw [h1] at hg
          cases hg
    · rintro ⟨h, hh, k, hk, hbit, hg0⟩
      refine Or.inr ⟨h, hh, k, hk, ?_, by rw [hw h hh]; exact hbit⟩
      have hS := spriteMask_hit m.memory m.index_register (m.registers rx) (m.registers ry)
        n h k (by omega) hh hk
      rw [hw h hh] at hS
      rw [drawRows_fst m.memory m.index_register (m.registers rx) (m.registers ry) n
          m.gfx 0 res1 e1, hS, hbit, hg0]
      decide
  · show upd (upd m.registers 0xF res1.2) 0xF res2.2 15 = 0 ∨
      upd (upd m.registers 0xF res1.2) 0xF res2.2 15 = 1
    rw [upd_self]
    exact Nat.le_one_iff_eq_zero_or_eq_one.mp
      (drawRows_vf_le m.memory m.index_register (m.registers rx) (m.registers ry) n
        (res1.1, 0) res2 (Nat.zero_le 1) e2)

/-- Claim C9 counterexample: (a) on `mC9A` — sprite byte 0x80, the single
touched pixel already set — drawing twice leaves VF = 0 although the
sprite has a set bit, contradicting the claimed full self-collision;
(b) on `mC9B` — row register ry = 15, which the draw itself overwrites as
the flag register — drawing twice leaves pixel 320 set although it
started clear, so the buffer is not restored. -/
theorem C9_counterexample :
    ((exec_opcode 0 (OpCode.Draw 0 1 1) mC9A).bind
      (fun p => exec_opcode 0 (OpCode.Draw 0 1 1) p.1)).map
        (fun p => p.1.registers 15) = some 0 ∧
    ((exec_opcode 0 (OpCode.Draw 0 15 1) mC9B).bind
      (fun p => exec_opcode 0 (OpCode.Draw 0 15 1) p.1)).map
        (fun p => (p.1.gfx 320, p.1.gfx 0)) = some (1, 1) ∧
    mC9B.gfx 320 = 0 := by
  exact ⟨by decide, by decide, by decide⟩

/-- Witness for `C9_thm`: the machine `mC9W` (sprite byte 0x80 at I = 0,
blank display), drawing a 1-row sprite at registers 0 and 1. -/
theorem C9_witness :
    ∃ m1 m2,
      exec_opcode 0 (OpCode.Draw 0 1 1) mC9W = some (m1, true) ∧
      exec_opcode 0 (OpCode.Draw 0 1 1) m1 = some (m2, true) ∧
      m2.gfx = mC9W.gfx ∧
      (m2.registers 15 = 1 ↔ ∃ h, h < 1 ∧ ∃ k, k < 8 ∧
          convert_to_bits (mC9W.memory (mC9W.index_register + h)) k = 1 ∧
          mC9W.gfx (pos_video (mC9W.registers 0) (mC9W.registers 1) h k) = 0) ∧
      (m2.registers 15 = 0 ∨ m2.registers 15 = 1) :=
  C9_thm 0 0 mC9W 0 1 1 (by decide) (by decide) (by decide) (by decide)
    (fun _ => Nat.zero_le 1)

end Chip8
